import Mathlib

/-!
Verification of the `aiomcache` connection pool (`src/aiomcache/pool.py`).

The pool is shallowly embedded as a small-step transition system under
single-threaded cooperative scheduling.  The only suspension points in the
source are (1) the `await self._connector(...)` inside `_create_new_conn`
and (2) `await self._pool.get()` when the idle queue is empty; every other
stretch of code runs atomically, so each atomic block between suspension
points becomes one step of the machine.

Connections are identified by `Nat` tokens handed out by a fresh-id
allocator: every completed connector call yields a brand-new
`(reader, writer)` pair of stream objects, and since `asyncio.StreamReader`
and `StreamWriter` compare by object identity, Connection values made from
distinct connector calls never compare equal — so a fresh token per created
connection is a faithful model of the created `Connection` values.  The
identity-vs-structural equality of the `Connection` NamedTuple itself is
modelled separately (`PyConnection` below).

The observable reader-side state (`at_eof()`, `exception()`) of a stream is
under the peer's control, so the scheduler label supplies it adversarially
at each staleness check.
-/

namespace Aiomcache

/-- Observable read-side state of an `asyncio.StreamReader` as consulted by
`pool.py`: `at_eof()` and whether `exception()` is not `None`. -/
structure Reader where
  at_eof : Bool
  has_exception : Bool
deriving DecidableEq, Repr

/-- The staleness test `conn.reader.at_eof() or conn.reader.exception() is not None`
used in `MemcachePool.acquire` and `MemcachePool.release`. -/
def isStale (r : Reader) : Bool := r.at_eof || r.has_exception

/-- The mutable state owned by one `MemcachePool` instance, plus bookkeeping
for the allocator of connection tokens and the set of closed transports.

* `pool`    — contents of `self._pool` (an `asyncio.Queue`), head = next `get()`;
  `put_nowait` appends at the tail.
* `in_use`  — contents of `self._in_use` (a `set`); kept as a list, with
  no-duplicates established as an invariant.
* `next_id` — allocator: the token of the next transport the connector will
  produce.
* `closed`  — tokens of transports that have been torn down
  (`_do_close`, or the surplus `reader.feed_eof(); writer.close()` branch of
  `_create_new_conn`). -/
structure PoolState where
  pool : List Nat
  in_use : List Nat
  minsize : Nat
  maxsize : Nat
  next_id : Nat
  closed : List Nat
deriving DecidableEq, Repr

/-- `MemcachePool.size`: `self._pool.qsize() + len(self._in_use)`. -/
def poolSize (s : PoolState) : Nat := s.pool.length + s.in_use.length

/-- Python `set.add`: no-op when the element is already present. -/
def setAdd (l : List Nat) (c : Nat) : List Nat := if c ∈ l then l else c :: l

/-- `MemcachePool._do_close(conn)`: `conn.reader.feed_eof(); conn.writer.close()` —
the transport is torn down, recorded in `closed`. -/
def doClose (s : PoolState) (c : Nat) : PoolState := { s with closed := c :: s.closed }

/-- `MemcachePool.release(conn)`, given the observable reader state `r` of `conn`.
`self._in_use.remove(conn)` raises `KeyError` when `conn` is not checked out,
modelled by `none`.  Otherwise the connection is closed when stale, else
re-enqueued at the tail of the idle queue.  No suspension: the whole body is
one atomic block. -/
def release (s : PoolState) (c : Nat) (r : Reader) : Option PoolState :=
  if c ∈ s.in_use then
    let s1 : PoolState := { s with in_use := s.in_use.erase c }
    some (if isStale r then doClose s1 c else { s1 with pool := s1.pool ++ [c] })
  else
    none

/-- Entry bound check of `MemcachePool._create_new_conn`: the connector is
invoked exactly when `self.size() < self._maxsize`; otherwise the method
returns `None` immediately, without suspending. -/
def createEntry (s : PoolState) : Bool := decide (poolSize s < s.maxsize)

/-- Resumption of `MemcachePool._create_new_conn` after the connector
completed.  The connector produced a fresh `(reader, writer)` transport,
token `s.next_id`.  The bound is re-checked against the state `s` at resume
time: if it still holds the new `Connection` is returned, otherwise the
just-created transport is destroyed (`reader.feed_eof(); writer.close()`)
and `None` is returned. -/
def createResume (s : PoolState) : Option Nat × PoolState :=
  let t := s.next_id
  let s1 : PoolState := { s with next_id := s.next_id + 1 }
  if poolSize s < s.maxsize then (some t, s1) else (none, doClose s1 t)

/-- Program counter of one task running `acquire` (and then possibly
`release`).  The suspension points of the source cut `acquire` into the
atomic blocks below.

* `warmCheck` — at the top of the warm-up loop
  (`while self.size() == 0 or self.size() < self._minsize`).
* `warmAwait` — suspended inside the connector call of the warm-up's
  `_create_new_conn`.
* `selGet`    — at `await self._pool.get()` of the selection loop
  (suspends while the queue is empty).
* `selAwait`  — suspended inside the connector call of the stale-replacement
  `_create_new_conn`.
* `done c`    — `acquire` returned Connection `c`; the caller holds it.
* `finished`  — the caller has released its connection.
* `failed`    — the connector raised; the exception propagated out of
  `acquire`. -/
inductive TaskState where
  | warmCheck
  | warmAwait
  | selGet
  | selAwait
  | done (c : Nat)
  | finished
  | failed
deriving DecidableEq, Repr

/-- One atomic block of a task, from the pool state `s`.  `r` is the
adversarially supplied reader state observed at whatever staleness check the
block performs; `fail` makes a pending connector invocation raise instead of
returning a transport.  `none` means the task cannot move (it is suspended
on an empty queue, or it is terminal). -/
def stepTask (s : PoolState) (t : TaskState) (r : Reader) (fail : Bool) :
    Option (PoolState × TaskState) :=
  match t with
  | .warmCheck =>
      if poolSize s = 0 ∨ poolSize s < s.minsize then
        if createEntry s then some (s, .warmAwait)
        else some (s, .selGet)
      else some (s, .selGet)
  | .warmAwait =>
      if fail then some (s, .failed)
      else
        match createResume s with
        | (some c, s1) => some ({ s1 with pool := s1.pool ++ [c] }, .warmCheck)
        | (none, s1) => some (s1, .selGet)
  | .selGet =>
      match s.pool with
      | [] => none
      | c :: rest =>
          let s1 : PoolState := { s with pool := rest }
          if isStale r then
            let s2 := doClose s1 c
            if createEntry s2 then some (s2, .selAwait)
            else some (s2, .selGet)
          else some ({ s1 with in_use := setAdd s1.in_use c }, .done c)
  | .selAwait =>
      if fail then some (s, .failed)
      else
        match createResume s with
        | (some c, s1) => some ({ s1 with in_use := setAdd s1.in_use c }, .done c)
        | (none, s1) => some (s1, .selGet)
  | .done c =>
      match release s c r with
      | some s1 => some (s1, .finished)
      | none => none
  | .finished => none
  | .failed => none

/-- A configuration: the pool state together with the program counters of
all client tasks. -/
structure Config where
  pst : PoolState
  tasks : List TaskState
deriving DecidableEq, Repr

/-- The scheduler picks task `i` and runs its next atomic block. -/
def step (cfg : Config) (i : Nat) (r : Reader) (fail : Bool) : Option Config :=
  match cfg.tasks[i]? with
  | none => none
  | some t =>
      match stepTask cfg.pst t r fail with
      | none => none
      | some (s, t') => some { pst := s, tasks := cfg.tasks.set i t' }

/-- One scheduling step, any task, any adversarial choices. -/
def Steps (c c' : Config) : Prop := ∃ i r fail, step c i r fail = some c'

/-- Reachability under cooperative interleaving. -/
def Reachable (c c' : Config) : Prop := Relation.ReflTransGen Steps c c'

/-- Pool state directly after `MemcachePool.__init__`: empty queue, empty
in-use set, the given bounds stored unvalidated. -/
def initState (m M : Nat) : PoolState :=
  { pool := [], in_use := [], minsize := m, maxsize := M, next_id := 0, closed := [] }

/-- `n` client tasks, each about to run `acquire` on a freshly constructed
pool with `minsize = m`, `maxsize = M`. -/
def initConfig (n m M : Nat) : Config :=
  { pst := initState m M, tasks := List.replicate n .warmCheck }

/-! ### Deterministic single-task execution

For the warm-up-convergence property a single client runs `acquire` alone:
the scheduler always picks task 0, the connector always succeeds, and every
connection it delivers is healthy (`at_eof` false, no exception). -/

/-- The reader state of a healthy connection. -/
def healthy : Reader := ⟨false, false⟩

/-- Whether a task has completed its `acquire` call. -/
def isDone : Option TaskState → Bool
  | some (TaskState.done _) => true
  | _ => false

/-- Run task 0 with a healthy, always-succeeding connector for at most `fuel`
atomic blocks, stopping as soon as its `acquire` returns. -/
def run1 : Nat → Config → Config
  | 0, cfg => cfg
  | fuel + 1, cfg =>
      if isDone cfg.tasks[0]? then cfg
      else
        match step cfg 0 healthy false with
        | some cfg' => run1 fuel cfg'
        | none => cfg

/-- Configuration after `k` successful warm-up iterations of a single client
on a fresh pool: connections `0 .. k-1` idle, none in use, the task back at
the top of the warm-up loop. -/
def warmCfg (k m M : Nat) : Config :=
  Config.mk (PoolState.mk (List.range k) [] m M k []) [TaskState.warmCheck]

/-- As `warmCfg`, but suspended in the warm-up connector call. -/
def awaitCfg (k m M : Nat) : Config :=
  Config.mk (PoolState.mk (List.range k) [] m M k []) [TaskState.warmAwait]

/-- As `warmCfg`, but the task has left the warm-up loop and is at the
idle-queue take of the selection phase. -/
def selCfg (k m M : Nat) : Config :=
  Config.mk (PoolState.mk (List.range k) [] m M k []) [TaskState.selGet]

/-- Configuration after the single client completed `acquire` on a pool
warmed to `k + 1` connections: it took Connection 0 from the queue head. -/
def doneCfg (k m M : Nat) : Config :=
  Config.mk (PoolState.mk (List.map Nat.succ (List.range k)) [0] m M (k + 1) [])
    [TaskState.done 0]

/-! ### Construction (`MemcachePool.__init__` / `MemcachePool.unix`)

`conn_args` is a Python `dict[str, Any]`, modelled as an insertion-ordered
association list; `d[k] = v` overwrites in place when `k` is present and
appends otherwise.  The connector is `asyncio.open_connection` (TCP),
`asyncio.open_unix_connection`, or some caller-supplied callable. -/

/-- A configuration value appearing in `conn_args`. -/
inductive Value where
  | str (s : String)
  | nat (n : Nat)
deriving DecidableEq, Repr

/-- A Python dict from option name to value, modelled by its lookup
function. -/
def Dict := String → Option Value

/-- The empty dict. -/
def emptyDict : Dict := fun _ => none

/-- `d[k] = v`: overwrites the binding of `k`, keeps every other key. -/
def dictSet (d : Dict) (k : String) (v : Value) : Dict :=
  fun k2 => if k2 = k then some v else d k2

/-- `d[k]` lookup. -/
def dictGet (d : Dict) (k : String) : Option Value := d k

/-- Which connect operation the pool will call. -/
inductive ConnectorKind where
  | openConnection
  | openUnixConnection
  | custom (id : Nat)
deriving DecidableEq, Repr

/-- A `MemcachePool` object as built by the constructor. -/
structure MemcachePool where
  connector : ConnectorKind
  conn_args : Dict
  minsize : Nat
  maxsize : Nat
  pool : List Nat
  in_use : List Nat

/-- `MemcachePool.__init__(host, port, *, minsize, maxsize, conn_args=None,
connector=None)`: keeps `conn_args or {}`; when no connector is supplied,
defaults to `asyncio.open_connection` and stores `host`/`port` into
`conn_args`; starts with an empty queue and an empty in-use set.  No
validation of `minsize`/`maxsize` is performed. -/
def MemcachePool.init (host : String) (port : Nat) (minsize maxsize : Nat)
    (conn_args : Option Dict) (connector : Option ConnectorKind) : MemcachePool :=
  let ca := conn_args.getD emptyDict
  match connector with
  | none =>
      { connector := ConnectorKind.openConnection,
        conn_args := dictSet (dictSet ca "host" (Value.str host)) "port" (Value.nat port),
        minsize := minsize, maxsize := maxsize, pool := [], in_use := [] }
  | some k =>
      { connector := k, conn_args := ca,
        minsize := minsize, maxsize := maxsize, pool := [], in_use := [] }

/-- `MemcachePool.unix(path, **kwargs)`: forces
`kwargs['connector'] = asyncio.open_unix_connection`, stores the socket path
into `conn_args`, and otherwise delegates to the general constructor. -/
def MemcachePool.unix (path : String) (host : String) (port : Nat)
    (minsize maxsize : Nat) (conn_args : Option Dict) : MemcachePool :=
  MemcachePool.init host port minsize maxsize
    (some (dictSet (conn_args.getD emptyDict) "path" (Value.str path)))
    (some ConnectorKind.openUnixConnection)

/-! ### Connection equality (`Connection` is a `NamedTuple`)

`Connection` is a `NamedTuple` of an `asyncio.StreamReader` and an
`asyncio.StreamWriter`.  Neither stream class defines `__eq__`, so the
components compare by object identity; the tuple itself, however, compares
componentwise like every tuple.  `objId` is the identity (`id()`) of the
Connection tuple object itself, `reader`/`writer` the identities of its
stream objects. -/
structure PyConnection where
  objId : Nat
  reader : Nat
  writer : Nat
deriving DecidableEq, Repr

/-- `Connection.__eq__`: componentwise tuple equality over identity-compared
streams.  The identity `objId` of the tuple object plays no role. -/
def connEq (a b : PyConnection) : Bool := a.reader == b.reader && a.writer == b.writer

/-- Membership in `self._in_use: Set[Connection]` is decided by `__eq__`
(and `__hash__`), i.e. by `connEq`, not by object identity. -/
def pySetMem (l : List PyConnection) (c : PyConnection) : Bool :=
  l.any (fun x => connEq x c)

/-! ### The inductive invariant -/

/-- Task-indexed part of the pool invariant: every Connection a caller holds
is registered in the in-use set, and no two callers hold the same one. -/
def DoneInv (tasks : List TaskState) (U : List Nat) : Prop :=
  (∀ (i c : Nat), tasks[i]? = some (TaskState.done c) → c ∈ U) ∧
  (∀ (i j c : Nat), i ≠ j → tasks[i]? = some (TaskState.done c) →
    tasks[j]? = some (TaskState.done c) → False)

/-- The inductive invariant of the pool machine for a pool constructed with
`minsize = m`, `maxsize = M`: the bounds are never mutated, no token appears
twice across the idle queue and the in-use set, all tokens in the pool were
actually allocated, the committed size never exceeds `M`, and `DoneInv`. -/
def Inv (m M : Nat) (cfg : Config) : Prop :=
  cfg.pst.minsize = m ∧ cfg.pst.maxsize = M ∧
  (cfg.pst.pool ++ cfg.pst.in_use).Nodup ∧
  (∀ c ∈ cfg.pst.pool ++ cfg.pst.in_use, c < cfg.pst.next_id) ∧
  poolSize cfg.pst ≤ M ∧
  DoneInv cfg.tasks cfg.pst.in_use

theorem getElem?_set_cases {α : Type} {l : List α} {i j : Nat} {a b : α}
    (h : (l.set i a)[j]? = some b) :
    (j = i ∧ a = b) ∨ (j ≠ i ∧ l[j]? = some b) := by
  rcases eq_or_ne j i with hij | hij
  · subst hij
    by_cases hj : j < l.length
    · rw [List.getElem?_set, if_pos rfl, if_pos hj] at h
      exact Or.inl ⟨rfl, Option.some.inj h⟩
    · rw [List.getElem?_set, if_pos rfl, if_neg hj] at h
      cases h
  · right
    refine ⟨hij, ?_⟩
    rwa [List.getElem?_set_ne (Ne.symm hij)] at h

theorem doneInv_set_not_done {tasks : List TaskState} {U U' : List Nat} {i : Nat}
    {t' : TaskState} (h : DoneInv tasks U) (hU : ∀ c, c ∈ U → c ∈ U')
    (ht' : ∀ c, t' ≠ TaskState.done c) :
    DoneInv (tasks.set i t') U' := by
  obtain ⟨h4, h5⟩ := h
  constructor
  · intro j c hj
    rcases getElem?_set_cases hj with ⟨_, hd⟩ | ⟨_, hold⟩
    · exact absurd hd (ht' c)
    · exact hU c (h4 j c hold)
  · intro j k c hjk hj hk
    rcases getElem?_set_cases hj with ⟨_, hd⟩ | ⟨_, hj'⟩
    · exact absurd hd (ht' c)
    rcases getElem?_set_cases hk with ⟨_, hd⟩ | ⟨_, hk'⟩
    · exact absurd hd (ht' c)
    exact h5 j k c hjk hj' hk'

theorem doneInv_set_done {tasks : List TaskState} {U U' : List Nat} {i c : Nat}
    (h : DoneInv tasks U) (hc : c ∉ U) (hU' : ∀ x, x ∈ U' ↔ x = c ∨ x ∈ U) :
    DoneInv (tasks.set i (.done c)) U' := by
  obtain ⟨h4, h5⟩ := h
  constructor
  · intro j d hj
    rcases getElem?_set_cases hj with ⟨_, hd⟩ | ⟨_, hold⟩
    · injection hd with hcd
      subst hcd
      exact (hU' c).2 (Or.inl rfl)
    · exact (hU' d).2 (Or.inr (h4 j d hold))
  · intro j k d hjk hj hk
    rcases getElem?_set_cases hj with ⟨hji, hd⟩ | ⟨hji, hj'⟩
    · injection hd with hcd
      subst hcd
      rcases getElem?_set_cases hk with ⟨hki, _⟩ | ⟨_, hk'⟩
      · exact hjk (hji.trans hki.symm)
      · exact hc (h4 k c hk')
    · rcases getElem?_set_cases hk with ⟨_, hd⟩ | ⟨_, hk'⟩
      · injection hd with hcd
        subst hcd
        exact hc (h4 j c hj')
      · exact h5 j k d hjk hj' hk'

theorem doneInv_release {tasks : List TaskState} {U : List Nat} {i c : Nat}
    (h : DoneInv tasks U) (hi : tasks[i]? = some (.done c)) :
    DoneInv (tasks.set i .finished) (U.erase c) := by
  obtain ⟨h4, h5⟩ := h
  constructor
  · intro j d hj
    rcases getElem?_set_cases hj with ⟨_, hd⟩ | ⟨hji, hj'⟩
    · exact TaskState.noConfusion hd
    · have hdU := h4 j d hj'
      have hdc : d ≠ c := by
        intro hdc
        subst hdc
        exact h5 j i d hji hj' hi
      exact (List.mem_erase_of_ne hdc).2 hdU
  · intro j k d hjk hj hk
    rcases getElem?_set_cases hj with ⟨_, hd⟩ | ⟨_, hj'⟩
    · exact TaskState.noConfusion hd
    rcases getElem?_set_cases hk with ⟨_, hd⟩ | ⟨_, hk'⟩
    · exact TaskState.noConfusion hd
    exact h5 j k d hjk hj' hk'

/-- Every atomic block of every task preserves the invariant. -/
theorem inv_step {m M : Nat} {cfg cfg' : Config} {i : Nat} {r : Reader} {fail : Bool}
    (h : Inv m M cfg) (hs : step cfg i r fail = some cfg') : Inv m M cfg' := by
  obtain ⟨s, tasks⟩ := cfg
  obtain ⟨hm, hM, h1, h2, h3, h4⟩ := h
  dsimp only at hm hM h1 h2 h3 h4
  simp only [step] at hs
  split at hs
  next => simp at hs
  next t htask =>
    split at hs
    next => simp at hs
    next S' T' hstep =>
    replace hs : cfg' = Config.mk S' (tasks.set i T') := (Option.some.inj hs).symm
    subst hs
    cases t with
    | warmCheck =>
        simp only [stepTask] at hstep
        split at hstep <;> try split at hstep
        all_goals
          (injection hstep with hp
           injection hp with hS hT
           subst hS
           subst hT
           exact ⟨hm, hM, h1, h2, h3, doneInv_set_not_done h4 (fun _ hc => hc)
             (fun c hd => TaskState.noConfusion hd)⟩)
    | warmAwait =>
        cases fail with
        | true =>
            simp only [stepTask, if_pos] at hstep
            simp only [Option.some.injEq, Prod.mk.injEq] at hstep
            obtain ⟨rfl, rfl⟩ := hstep
            exact ⟨hm, hM, h1, h2, h3, doneInv_set_not_done h4 (fun _ hc => hc)
              (fun c hd => TaskState.noConfusion hd)⟩
        | false =>
            by_cases hb : poolSize s < s.maxsize
            · simp only [stepTask, createResume, doClose, Bool.false_eq_true, if_false,
                if_pos hb, Option.some.injEq, Prod.mk.injEq] at hstep
              obtain ⟨rfl, rfl⟩ := hstep
              have hfresh : s.next_id ∉ s.pool ++ s.in_use := fun hmem =>
                Nat.lt_irrefl _ (h2 _ hmem)
              refine ⟨hm, hM, ?_, ?_, ?_, doneInv_set_not_done h4 (fun _ hc => hc)
                (fun c hd => TaskState.noConfusion hd)⟩
              · rw [List.append_assoc, List.singleton_append, List.nodup_middle]
                exact List.nodup_cons.mpr ⟨hfresh, h1⟩
              · intro c hc
                rw [List.append_assoc, List.singleton_append] at hc
                rcases List.mem_append.mp hc with hc | hc
                · exact Nat.lt_succ_of_lt (h2 c (List.mem_append.mpr (Or.inl hc)))
                · rcases List.mem_cons.mp hc with rfl | hc
                  · exact Nat.lt_succ_self _
                  · exact Nat.lt_succ_of_lt (h2 c (List.mem_append.mpr (Or.inr hc)))
              · have hb' : poolSize s < M := hM ▸ hb
                simp only [poolSize, List.length_append, List.length_cons,
                  List.length_nil] at hb' ⊢
                omega
            · simp only [stepTask, createResume, doClose, Bool.false_eq_true, if_false,
                if_neg hb, Option.some.injEq, Prod.mk.injEq] at hstep
              obtain ⟨rfl, rfl⟩ := hstep
              refine ⟨hm, hM, h1, ?_, h3, doneInv_set_not_done h4 (fun _ hc => hc)
                (fun c hd => TaskState.noConfusion hd)⟩
              intro c hc
              exact Nat.lt_succ_of_lt (h2 c hc)
    | selGet =>
        cases hpool : s.pool with
        | nil => simp [stepTask, hpool] at hstep
        | cons c rest =>
            rw [hpool] at h1 h2
            have hndr : (rest ++ s.in_use).Nodup :=
              (List.nodup_cons.mp (List.cons_append c rest s.in_use ▸ h1)).2
            have hcnot : c ∉ rest ++ s.in_use :=
              (List.nodup_cons.mp (List.cons_append c rest s.in_use ▸ h1)).1
            cases hstale : isStale r with
            | false =>
                simp only [stepTask, hpool, hstale, Bool.false_eq_true, if_false,
                  Option.some.injEq, Prod.mk.injEq] at hstep
                obtain ⟨rfl, rfl⟩ := hstep
                have hcU : c ∉ s.in_use := fun hc =>
                  hcnot (List.mem_append.mpr (Or.inr hc))
                have hsa : setAdd s.in_use c = c :: s.in_use := if_neg hcU
                refine ⟨hm, hM, ?_, ?_, ?_, ?_⟩
                · rw [hsa, List.nodup_middle]
                  exact List.nodup_cons.mpr ⟨hcnot, hndr⟩
                · intro x hx
                  apply h2
                  rw [hsa] at hx
                  simp only [List.cons_append, List.mem_append, List.mem_cons] at hx ⊢
                  tauto
                · rw [hsa]
                  simp only [poolSize, hpool, List.length_append,
                    List.length_cons] at h3 ⊢
                  omega
                · rw [hsa]
                  exact doneInv_set_done h4 hcU (fun x => List.mem_cons)
            | true =>
                simp only [stepTask, hpool, hstale, if_true, doClose] at hstep
                have hsub : ∀ x ∈ rest ++ s.in_use, x ∈ (c :: rest) ++ s.in_use := by
                  intro x hx
                  simp only [List.cons_append, List.mem_append, List.mem_cons] at hx ⊢
                  tauto
                split at hstep <;>
                  (simp only [Option.some.injEq, Prod.mk.injEq] at hstep
                   obtain ⟨rfl, rfl⟩ := hstep
                   refine ⟨hm, hM, hndr, fun x hx => h2 x (hsub x hx), ?_,
                     doneInv_set_not_done h4 (fun _ hc => hc)
                       (fun d hd => TaskState.noConfusion hd)⟩
                   simp only [poolSize, hpool, List.length_append,
                     List.length_cons] at h3 ⊢
                   omega)
    | selAwait =>
        cases fail with
        | true =>
            simp only [stepTask, if_pos] at hstep
            simp only [Option.some.injEq, Prod.mk.injEq] at hstep
            obtain ⟨rfl, rfl⟩ := hstep
            exact ⟨hm, hM, h1, h2, h3, doneInv_set_not_done h4 (fun _ hc => hc)
              (fun c hd => TaskState.noConfusion hd)⟩
        | false =>
            by_cases hb : poolSize s < s.maxsize
            · simp only [stepTask, createResume, doClose, Bool.false_eq_true, if_false,
                if_pos hb, Option.some.injEq, Prod.mk.injEq] at hstep
              obtain ⟨rfl, rfl⟩ := hstep
              have hfresh : s.next_id ∉ s.pool ++ s.in_use := fun hmem =>
                Nat.lt_irrefl _ (h2 _ hmem)
              have hfU : s.next_id ∉ s.in_use := fun hc =>
                hfresh (List.mem_append.mpr (Or.inr hc))
              have hsa : setAdd s.in_use s.next_id = s.next_id :: s.in_use := if_neg hfU
              refine ⟨hm, hM, ?_, ?_, ?_, ?_⟩
              · rw [hsa, List.nodup_middle]
                exact List.nodup_cons.mpr ⟨hfresh, h1⟩
              · intro x hx
                rw [hsa] at hx
                rcases List.mem_append.mp hx with hx | hx
                · exact Nat.lt_succ_of_lt (h2 x (List.mem_append.mpr (Or.inl hx)))
                · rcases List.mem_cons.mp hx with rfl | hx
                  · exact Nat.lt_succ_self _
                  · exact Nat.lt_succ_of_lt (h2 x (List.mem_append.mpr (Or.inr hx)))
              · have hb' : poolSize s < M := hM ▸ hb
                rw [hsa]
                simp only [poolSize, List.length_append, List.length_cons] at hb' ⊢
                omega
              · rw [hsa]
                exact doneInv_set_done h4 hfU (fun x => List.mem_cons)
            · simp only [stepTask, createResume, doClose, Bool.false_eq_true, if_false,
                if_neg hb, Option.some.injEq, Prod.mk.injEq] at hstep
              obtain ⟨rfl, rfl⟩ := hstep
              refine ⟨hm, hM, h1, ?_, h3, doneInv_set_not_done h4 (fun _ hc => hc)
                (fun c hd => TaskState.noConfusion hd)⟩
              intro c hc
              exact Nat.lt_succ_of_lt (h2 c hc)
    | done c =>
        simp only [stepTask, release] at hstep
        by_cases hcU : c ∈ s.in_use
        · rw [if_pos hcU] at hstep
          have hndU : s.in_use.Nodup := (List.nodup_append.mp h1).2.1
          have hdisj : List.Disjoint s.pool s.in_use := (List.nodup_append.mp h1).2.2
          have hnde : (s.pool ++ s.in_use.erase c).Nodup :=
            h1.sublist ((List.erase_sublist c s.in_use).append_left s.pool)
          have hmeme : ∀ x ∈ s.pool ++ s.in_use.erase c, x ∈ s.pool ++ s.in_use := by
            intro x hx
            rcases List.mem_append.mp hx with hx | hx
            · exact List.mem_append.mpr (Or.inl hx)
            · exact List.mem_append.mpr (Or.inr (List.erase_subset _ _ hx))
          cases hstale : isStale r with
          | true =>
              simp only [hstale, if_true, doClose, Option.some.injEq,
                Prod.mk.injEq] at hstep
              obtain ⟨rfl, rfl⟩ := hstep
              refine ⟨hm, hM, hnde, fun x hx => h2 x (hmeme x hx), ?_,
                doneInv_release h4 htask⟩
              simp only [poolSize, List.length_append,
                List.length_erase_of_mem hcU] at h3 ⊢
              omega
          | false =>
              simp only [hstale, Bool.false_eq_true, if_false, Option.some.injEq,
                Prod.mk.injEq] at hstep
              obtain ⟨rfl, rfl⟩ := hstep
              refine ⟨hm, hM, ?_, ?_, ?_, doneInv_release h4 htask⟩
              · rw [List.append_assoc, List.singleton_append, List.nodup_middle]
                refine List.nodup_cons.mpr ⟨fun hmem => ?_, hnde⟩
                rcases List.mem_append.mp hmem with hc | hc
                · exact hdisj hc hcU
                · exact hndU.not_mem_erase hc
              · intro x hx
                rw [List.append_assoc, List.singleton_append] at hx
                rcases List.mem_append.mp hx with hx | hx
                · exact h2 x (List.mem_append.mpr (Or.inl hx))
                · rcases List.mem_cons.mp hx with rfl | hx
                  · exact h2 x (List.mem_append.mpr (Or.inr hcU))
                  · exact h2 x (List.mem_append.mpr
                      (Or.inr (List.erase_subset _ _ hx)))
              · have hpos : 0 < s.in_use.length := List.length_pos_of_mem hcU
                simp only [poolSize, List.length_append, List.length_cons,
                  List.length_nil, List.length_erase_of_mem hcU] at h3 ⊢
                omega
        · rw [if_neg hcU] at hstep
          simp at hstep
    | finished => simp [stepTask] at hstep
    | failed => simp [stepTask] at hstep

/-- The invariant holds in the initial configuration. -/
theorem inv_init (n m M : Nat) : Inv m M (initConfig n m M) := by
  refine ⟨rfl, rfl, List.nodup_nil, by simp [initConfig, initState], by
    simp [initConfig, initState, poolSize], ?_, ?_⟩
  · intro i c hi
    rw [initConfig, List.getElem?_replicate] at hi
    split at hi
    · cases hi
    · cases hi
  · intro i j c _ hi _
    rw [initConfig, List.getElem?_replicate] at hi
    split at hi
    · cases hi
    · cases hi

/-- The invariant holds in every reachable configuration. -/
theorem inv_reachable {n m M : Nat} {cfg : Config}
    (h : Reachable (initConfig n m M) cfg) : Inv m M cfg := by
  induction h with
  | refl => exact inv_init n m M
  | tail _ hst ih =>
      obtain ⟨i, r, fl, hst⟩ := hst
      exact inv_step ih hst

/-! ### Claim theorems: invariants -/

/-- C1: For every sequence of interleaved `acquire`/`release` calls under
single-threaded cooperative scheduling, at every committed state (the states
between atomic blocks of the machine) `size() = |available| + |inUse|` and
`size()` is at most `maxsize`. -/
theorem bound_invariant {n m M : Nat} {cfg : Config}
    (h : Reachable (initConfig n m M) cfg) :
    poolSize cfg.pst = cfg.pst.pool.length + cfg.pst.in_use.length ∧
    cfg.pst.maxsize = M ∧ poolSize cfg.pst ≤ M :=
  ⟨rfl, (inv_reachable h).2.1, (inv_reachable h).2.2.2.2.1⟩

/-- Witness for C1: a concrete two-step schedule of one `acquire` on a pool
with `minsize = maxsize = 1` (enter the connector, then complete it and
enqueue the connection) reaches a committed state of size 1 ≤ 1. -/
theorem bound_invariant_witness :
    poolSize (Config.mk (PoolState.mk [0] [] 1 1 1 []) [TaskState.warmCheck]).pst =
      (Config.mk (PoolState.mk [0] [] 1 1 1 []) [TaskState.warmCheck]).pst.pool.length +
      (Config.mk (PoolState.mk [0] [] 1 1 1 []) [TaskState.warmCheck]).pst.in_use.length ∧
    (Config.mk (PoolState.mk [0] [] 1 1 1 []) [TaskState.warmCheck]).pst.maxsize = 1 ∧
    poolSize (Config.mk (PoolState.mk [0] [] 1 1 1 []) [TaskState.warmCheck]).pst ≤ 1 := by
  have h1 : Steps (initConfig 1 1 1)
      (Config.mk (PoolState.mk [] [] 1 1 0 []) [TaskState.warmAwait]) :=
    ⟨0, Reader.mk false false, false, by decide⟩
  have h2 : Steps (Config.mk (PoolState.mk [] [] 1 1 0 []) [TaskState.warmAwait])
      (Config.mk (PoolState.mk [0] [] 1 1 1 []) [TaskState.warmCheck]) :=
    ⟨0, Reader.mk false false, false, by decide⟩
  exact bound_invariant (Relation.ReflTransGen.tail
    (Relation.ReflTransGen.tail Relation.ReflTransGen.refl h1) h2)

/-- C2: in every reachable pool state no Connection is simultaneously in the
idle queue and in the in-use set, the in-use set holds a Connection at most
once, and no two callers simultaneously hold the same Connection. -/
theorem no_double_issue {n m M : Nat} {cfg : Config}
    (h : Reachable (initConfig n m M) cfg) :
    (∀ c ∈ cfg.pst.pool, c ∉ cfg.pst.in_use) ∧
    cfg.pst.in_use.Nodup ∧
    (∀ (i j c : Nat), i ≠ j → cfg.tasks[i]? = some (TaskState.done c) →
      cfg.tasks[j]? = some (TaskState.done c) → False) := by
  obtain ⟨-, -, h1, -, -, -, h5⟩ := inv_reachable h
  exact ⟨fun c hc hcU => (List.nodup_append.mp h1).2.2 hc hcU,
    (List.nodup_append.mp h1).2.1, h5⟩

/-- Witness for C2: a concrete four-step schedule in which one `acquire`
completes and the caller holds Connection 0. -/
theorem no_double_issue_witness :
    (∀ c ∈ (Config.mk (PoolState.mk [] [0] 1 1 1 []) [TaskState.done 0]).pst.pool,
      c ∉ (Config.mk (PoolState.mk [] [0] 1 1 1 []) [TaskState.done 0]).pst.in_use) ∧
    (Config.mk (PoolState.mk [] [0] 1 1 1 []) [TaskState.done 0]).pst.in_use.Nodup ∧
    (∀ (i j c : Nat), i ≠ j →
      (Config.mk (PoolState.mk [] [0] 1 1 1 []) [TaskState.done 0]).tasks[i]? =
        some (TaskState.done c) →
      (Config.mk (PoolState.mk [] [0] 1 1 1 []) [TaskState.done 0]).tasks[j]? =
        some (TaskState.done c) → False) := by
  have h1 : Steps (initConfig 1 1 1)
      (Config.mk (PoolState.mk [] [] 1 1 0 []) [TaskState.warmAwait]) :=
    ⟨0, Reader.mk false false, false, by decide⟩
  have h2 : Steps (Config.mk (PoolState.mk [] [] 1 1 0 []) [TaskState.warmAwait])
      (Config.mk (PoolState.mk [0] [] 1 1 1 []) [TaskState.warmCheck]) :=
    ⟨0, Reader.mk false false, false, by decide⟩
  have h3 : Steps (Config.mk (PoolState.mk [0] [] 1 1 1 []) [TaskState.warmCheck])
      (Config.mk (PoolState.mk [0] [] 1 1 1 []) [TaskState.selGet]) :=
    ⟨0, Reader.mk false false, false, by decide⟩
  have h4 : Steps (Config.mk (PoolState.mk [0] [] 1 1 1 []) [TaskState.selGet])
      (Config.mk (PoolState.mk [] [0] 1 1 1 []) [TaskState.done 0]) :=
    ⟨0, Reader.mk false false, false, by decide⟩
  exact no_double_issue (Relation.ReflTransGen.tail (Relation.ReflTransGen.tail
    (Relation.ReflTransGen.tail (Relation.ReflTransGen.tail
      Relation.ReflTransGen.refl h1) h2) h3) h4)

/-! ### Claim theorems: the creation path -/

/-- C3: `_create_new_conn` returns `None` immediately, without invoking the
connector, whenever `size() >= maxsize` at entry (a `warmCheck` task with the
bound reached moves straight on, never entering the connector suspension
state, with the pool state untouched); otherwise it invokes the connector,
and after the connect suspension re-checks `size() < maxsize` against the
resume-time state: if the bound still holds it returns the new Connection,
and if not it destroys the just-created transport and returns `None`. -/
theorem create_new_conn_spec (s : PoolState) :
    (s.maxsize ≤ poolSize s → createEntry s = false) ∧
    (poolSize s < s.maxsize → createEntry s = true) ∧
    (poolSize s < s.maxsize →
      createResume s = (some s.next_id, { s with next_id := s.next_id + 1 })) ∧
    (s.maxsize ≤ poolSize s →
      (createResume s).1 = none ∧ s.next_id ∈ (createResume s).2.closed ∧
      (createResume s).2.pool = s.pool ∧ (createResume s).2.in_use = s.in_use) ∧
    (∀ (cfg : Config) (i : Nat) (r : Reader) (fl : Bool),
      cfg.tasks[i]? = some TaskState.warmCheck →
      cfg.pst.maxsize ≤ poolSize cfg.pst →
      step cfg i r fl = some (Config.mk cfg.pst (cfg.tasks.set i TaskState.selGet))) := by
  refine ⟨fun h => ?_, fun h => ?_, fun h => ?_, fun h => ?_, ?_⟩
  · exact decide_eq_false (Nat.not_lt.mpr h)
  · exact decide_eq_true h
  · simp only [createResume, if_pos h]
  · refine ⟨?_, ?_, ?_, ?_⟩ <;>
      simp [createResume, doClose, if_neg (Nat.not_lt.mpr h)]
  · intro cfg i r fl htask hb
    have hce : createEntry cfg.pst = false := decide_eq_false (Nat.not_lt.mpr hb)
    simp [step, htask, stepTask, hce, ite_self]

/-- Witness for C3: a full pool (size 1, maxsize 1) and a pool with room
(size 0, maxsize 1). -/
theorem create_new_conn_spec_witness :
    createEntry (PoolState.mk [0] [] 0 1 1 []) = false ∧
    createEntry (PoolState.mk [] [] 0 1 0 []) = true ∧
    createResume (PoolState.mk [] [] 0 1 0 []) =
      (some 0, PoolState.mk [] [] 0 1 1 []) ∧
    (createResume (PoolState.mk [0] [] 0 1 1 [])).1 = none ∧
    step (Config.mk (PoolState.mk [0] [] 0 1 1 []) [TaskState.warmCheck]) 0
        (Reader.mk false false) false =
      some (Config.mk (PoolState.mk [0] [] 0 1 1 []) [TaskState.selGet]) := by
  obtain ⟨a, -, -, d, e⟩ := create_new_conn_spec (PoolState.mk [0] [] 0 1 1 [])
  obtain ⟨-, b', c', -, -⟩ := create_new_conn_spec (PoolState.mk [] [] 0 1 0 [])
  exact ⟨a (by decide), b' (by decide), c' (by decide), (d (by decide)).1,
    e (Config.mk (PoolState.mk [0] [] 0 1 1 []) [TaskState.warmCheck]) 0
      (Reader.mk false false) false rfl (by decide)⟩

/-! ### Claim theorems: release -/

/-- C6: `release(conn)` fails (raises `KeyError`, modelled `none`) when
`conn` is not in the in-use set; otherwise it removes `conn` from the in-use
set and then, in the same atomic block (no suspension point occurs in
`release`), destroys `conn` exactly when its reader is at end-of-stream or
has a recorded error — leaving the idle queue untouched, so the connection
does not return to `available` — and otherwise appends `conn` at the tail of
the idle queue. -/
theorem release_spec (s : PoolState) (c : Nat) (r : Reader) :
    (c ∉ s.in_use → release s c r = none) ∧
    (c ∈ s.in_use → isStale r = true →
      release s c r = some (doClose { s with in_use := s.in_use.erase c } c) ∧
      c ∈ (doClose { s with in_use := s.in_use.erase c } c).closed ∧
      (doClose { s with in_use := s.in_use.erase c } c).pool = s.pool) ∧
    (c ∈ s.in_use → isStale r = false →
      release s c r =
        some { s with in_use := s.in_use.erase c, pool := s.pool ++ [c] }) := by
  refine ⟨fun h => ?_, fun h hst => ?_, fun h hst => ?_⟩
  · simp only [release, if_neg h]
  · exact ⟨by simp only [release, if_pos h, hst, if_true], List.mem_cons_self _ _, rfl⟩
  · simp only [release, if_pos h, hst, Bool.false_eq_true, if_false]

/-- Witness for C6: releasing a connection that was never checked out fails;
releasing a stale one destroys it; releasing a healthy one re-enqueues it. -/
theorem release_spec_witness :
    release (PoolState.mk [] [5] 0 2 6 []) 7 (Reader.mk false false) = none ∧
    release (PoolState.mk [] [5] 0 2 6 []) 5 (Reader.mk true false) =
      some (PoolState.mk [] [] 0 2 6 [5]) ∧
    release (PoolState.mk [] [5] 0 2 6 []) 5 (Reader.mk false false) =
      some (PoolState.mk [5] [] 0 2 6 []) := by
  refine ⟨(release_spec (PoolState.mk [] [5] 0 2 6 []) 7 (Reader.mk false false)).1
    (by decide), ?_, ?_⟩
  · exact ((release_spec (PoolState.mk [] [5] 0 2 6 []) 5 (Reader.mk true false)).2.1
      (by decide) (by decide)).1
  · exact (release_spec (PoolState.mk [] [5] 0 2 6 []) 5 (Reader.mk false false)).2.2
      (by decide) (by decide)

/-! ### Claim theorems: connector failure -/

/-- C7: if the connector raises during an `acquire` (in either the warm-up
or the stale-replacement creation), the exception propagates out of
`acquire` (the task reaches the terminal `failed` state and the pool
performs no retry: a `failed` task has no further steps), and the entire
pool state — idle queue, in-use set, allocator, closed set — is exactly as
it was immediately before the connector invocation: the failed attempt never
reaches `available` or `inUse`. -/
theorem connector_failure_propagates (cfg : Config) (i : Nat) (r : Reader)
    (h : cfg.tasks[i]? = some TaskState.warmAwait ∨
      cfg.tasks[i]? = some TaskState.selAwait) :
    step cfg i r true = some (Config.mk cfg.pst (cfg.tasks.set i TaskState.failed)) ∧
    (∀ (s : PoolState) (r' : Reader) (fl : Bool),
      stepTask s TaskState.failed r' fl = none) := by
  constructor
  · rcases h with h | h <;> simp [step, h, stepTask]
  · intro s r' fl
    rfl

/-- Witness for C7: a concrete failing connector call out of the warm-up
suspension. -/
theorem connector_failure_propagates_witness :
    step (Config.mk (PoolState.mk [] [] 1 1 0 []) [TaskState.warmAwait]) 0
        (Reader.mk false false) true =
      some (Config.mk (PoolState.mk [] [] 1 1 0 []) [TaskState.failed]) ∧
    stepTask (PoolState.mk [] [] 1 1 0 []) TaskState.failed
      (Reader.mk false false) false = none := by
  obtain ⟨a, b⟩ := connector_failure_propagates
    (Config.mk (PoolState.mk [] [] 1 1 0 []) [TaskState.warmAwait]) 0
    (Reader.mk false false) (Or.inl rfl)
  exact ⟨a, b (PoolState.mk [] [] 1 1 0 []) (Reader.mk false false) false⟩

/-! ### Claim theorems: liveness checking of fresh connections -/

/-- C9: in `acquire`'s selection phase only Connections taken from the idle
queue are liveness-checked.  A task resuming from the stale-replacement
connector call with the bound holding adds the fresh Connection to the
in-use set and returns it to the caller for every observable reader state
`r` — including a stale one — and the step does not depend on `r` at all:
the end-of-stream/error check is never applied to the fresh Connection, and
the fresh Connection is not closed (the closed set is unchanged).  A stale
Connection taken from the idle queue, by contrast, is closed and removed. -/
theorem fresh_conn_not_checked (cfg : Config) (i : Nat) (r : Reader)
    (ht : cfg.tasks[i]? = some TaskState.selAwait)
    (hb : poolSize cfg.pst < cfg.pst.maxsize) :
    step cfg i r false = some (Config.mk
      { cfg.pst with in_use := setAdd cfg.pst.in_use cfg.pst.next_id,
                     next_id := cfg.pst.next_id + 1 }
      (cfg.tasks.set i (TaskState.done cfg.pst.next_id))) ∧
    (∀ cfg3, step cfg i r false = some cfg3 → cfg3.pst.closed = cfg.pst.closed) ∧
    (∀ r2 : Reader, step cfg i r2 false = step cfg i r false) ∧
    (∀ (cfg2 : Config) (j c : Nat) (rest : List Nat) (r2 : Reader),
      cfg2.tasks[j]? = some TaskState.selGet → cfg2.pst.pool = c :: rest →
      isStale r2 = true →
      ∃ cfg3, step cfg2 j r2 false = some cfg3 ∧
        c ∈ cfg3.pst.closed ∧ cfg3.pst.pool = rest) := by
  have h1 : step cfg i r false = some (Config.mk
      { cfg.pst with in_use := setAdd cfg.pst.in_use cfg.pst.next_id,
                     next_id := cfg.pst.next_id + 1 }
      (cfg.tasks.set i (TaskState.done cfg.pst.next_id))) := by
    simp [step, ht, stepTask, createResume, hb]
  refine ⟨h1, ?_, ?_, ?_⟩
  · intro cfg3 hc3
    rw [h1] at hc3
    injection hc3 with hc3
    subst hc3
    rfl
  · intro r2
    simp only [step, ht, stepTask]
  · intro cfg2 j c rest r2 hj hpool hst
    have hshape : ∃ t', stepTask cfg2.pst TaskState.selGet r2 false =
        some (doClose { cfg2.pst with pool := rest } c, t') := by
      simp only [stepTask, hpool, hst, if_true]
      split
      · exact ⟨_, rfl⟩
      · exact ⟨_, rfl⟩
    obtain ⟨t', hq⟩ := hshape
    refine ⟨Config.mk (doClose { cfg2.pst with pool := rest } c)
      (cfg2.tasks.set j t'), ?_, List.mem_cons_self _ _, rfl⟩
    simp [step, hj, hq]

/-- Witness for C9: a fresh Connection delivered by a connector whose stream
is already at end-of-stream (a stale reader state) is still handed to the
caller unchecked, while a stale Connection taken from the idle queue is
closed. -/
theorem fresh_conn_not_checked_witness :
    step (Config.mk (PoolState.mk [] [] 0 1 3 []) [TaskState.selAwait]) 0
        (Reader.mk true true) false =
      some (Config.mk (PoolState.mk [] [3] 0 1 4 []) [TaskState.done 3]) ∧
    (∃ cfg3, step (Config.mk (PoolState.mk [7] [] 0 1 8 []) [TaskState.selGet]) 0
        (Reader.mk true false) false = some cfg3 ∧
      7 ∈ cfg3.pst.closed ∧ cfg3.pst.pool = []) := by
  obtain ⟨a, -, -, d⟩ := fresh_conn_not_checked
    (Config.mk (PoolState.mk [] [] 0 1 3 []) [TaskState.selAwait]) 0
    (Reader.mk true true) rfl (by decide)
  exact ⟨a, d (Config.mk (PoolState.mk [7] [] 0 1 8 []) [TaskState.selGet]) 0 7 []
    (Reader.mk true false) rfl rfl (by decide)⟩

/-! ### Claim theorems: maxsize = 0 -/

/-- With `maxsize = 0` the pool state never changes and every task only ever
sits at the top of the warm-up loop or at the idle-queue take. -/
theorem maxzero_inv_reachable {n m : Nat} {cfg : Config}
    (h : Reachable (initConfig n m 0) cfg) :
    cfg.pst = initState m 0 ∧
    (∀ (i : Nat) (t : TaskState), cfg.tasks[i]? = some t →
      t = TaskState.warmCheck ∨ t = TaskState.selGet) := by
  induction h with
  | refl =>
      refine ⟨rfl, ?_⟩
      intro i t hi
      rw [initConfig] at hi
      rw [List.getElem?_replicate] at hi
      split at hi
      · exact Or.inl (Option.some.inj hi).symm
      · cases hi
  | tail _ hst ih =>
      obtain ⟨hpst, htys⟩ := ih
      obtain ⟨i, r, fl, hs⟩ := hst
      simp only [step] at hs
      split at hs
      next => simp at hs
      next t htask =>
        split at hs
        next => simp at hs
        next S2 T2 hstep =>
          injection hs with hs
          subst hs
          rcases htys i t htask with rfl | rfl
          · rw [hpst] at hstep
            simp [stepTask, initState, createEntry, poolSize] at hstep
            obtain ⟨rfl, rfl⟩ := hstep
            refine ⟨by simp [initState], ?_⟩
            intro j t2 hj
            rcases getElem?_set_cases hj with ⟨_, hd⟩ | ⟨_, hold⟩
            · exact Or.inr hd.symm
            · exact htys j t2 hold
          · rw [hpst] at hstep
            simp [stepTask, initState] at hstep

/-- C10: the constructor stores `minsize`/`maxsize` verbatim with no
validation; with `maxsize = 0` the creation bound check always fails (the
connector is never invoked: `createEntry` is false for every state of such a
pool, and indeed the pool state of every reachable configuration is still
the initial one, with no connection ever allocated), so an `acquire` on such
a pool, with the idle queue empty, suspends at the queue take: a `selGet`
task has no step. -/
theorem maxsize_zero_spec {n m : Nat} {cfg : Config}
    (h : Reachable (initConfig n m 0) cfg) :
    (∀ (host : String) (port m2 M2 : Nat) (d : Option Dict)
      (k : Option ConnectorKind),
      (MemcachePool.init host port m2 M2 d k).minsize = m2 ∧
      (MemcachePool.init host port m2 M2 d k).maxsize = M2) ∧
    (∀ s : PoolState, s.maxsize = 0 → createEntry s = false) ∧
    cfg.pst = initState m 0 ∧
    cfg.pst.next_id = 0 ∧
    (∀ (i : Nat) (r : Reader) (fl : Bool), cfg.tasks[i]? = some TaskState.selGet →
      step cfg i r fl = none) := by
  obtain ⟨hpst, htys⟩ := maxzero_inv_reachable h
  refine ⟨?_, ?_, hpst, by rw [hpst]; rfl, ?_⟩
  · intro host port m2 M2 d k
    cases k <;> exact ⟨rfl, rfl⟩
  · intro s hs0
    apply decide_eq_false
    rw [hs0]
    exact Nat.not_lt_zero _
  · intro i r fl hti
    simp [step, hti, stepTask, hpst, initState]

/-- Witness for C10: a pool built with `minsize = 5 > maxsize = 0` is
accepted; on a `maxsize = 0` pool the one client, after its warm-up loop
broke out, is stuck at the empty idle queue. -/
theorem maxsize_zero_spec_witness :
    (MemcachePool.init "h" 1 5 0 none none).minsize = 5 ∧
    (MemcachePool.init "h" 1 5 0 none none).maxsize = 0 ∧
    createEntry (initState 2 0) = false ∧
    (Config.mk (initState 2 0) [TaskState.selGet]).pst = initState 2 0 ∧
    step (Config.mk (initState 2 0) [TaskState.selGet]) 0 healthy false = none := by
  have h1 : Steps (initConfig 1 2 0) (Config.mk (initState 2 0) [TaskState.selGet]) :=
    ⟨0, healthy, false, by decide⟩
  obtain ⟨a, b, cst, -, e⟩ := maxsize_zero_spec
    (Relation.ReflTransGen.tail Relation.ReflTransGen.refl h1)
  exact ⟨(a "h" 1 5 0 none none).1, (a "h" 1 5 0 none none).2,
    b (initState 2 0) rfl, cst, e 0 healthy false rfl⟩

/-! ### Claim theorems: Connection equality -/

/-- Counterexample to C5 as stated: `Connection` is a `NamedTuple`, so two
distinct Connection handles (different object identities 0 and 1) whose
reader and writer components match ARE treated as equal, and membership in a
`set` of Connections is decided by this componentwise equality, not by the
identity of the Connection object. -/
theorem conn_identity_counterexample :
    PyConnection.mk 0 5 7 ≠ PyConnection.mk 1 5 7 ∧
    connEq (PyConnection.mk 0 5 7) (PyConnection.mk 1 5 7) = true ∧
    pySetMem [PyConnection.mk 0 5 7] (PyConnection.mk 1 5 7) = true := by
  decide

/-- C5 amended: Connection equality is componentwise tuple equality — two
Connections are equal exactly when they hold the identical reader object and
the identical writer object, regardless of the identity of the tuple itself;
hence two Connections with distinct reader objects (as delivered by distinct
connector calls) never compare equal, and `in_use`-set membership is decided
by this componentwise equality. -/
theorem conn_value_equality (a b : PyConnection) (l : List PyConnection) :
    (connEq a b = true ↔ a.reader = b.reader ∧ a.writer = b.writer) ∧
    (a.reader ≠ b.reader → connEq a b = false) ∧
    (pySetMem l a = true ↔ ∃ x ∈ l, connEq x a = true) := by
  refine ⟨?_, ?_, ?_⟩
  · simp [connEq]
  · intro h
    simp [connEq, h]
  · simp [pySetMem, List.any_eq_true]

/-- Witness for C5 (amended): Connections with distinct reader objects do
not compare equal. -/
theorem conn_value_equality_witness :
    connEq (PyConnection.mk 0 1 2) (PyConnection.mk 3 4 2) = false :=
  (conn_value_equality (PyConnection.mk 0 1 2) (PyConnection.mk 3 4 2) []).2.1
    (by decide)

/-! ### Claim theorems: constructors -/

/-- C8: `MemcachePool.unix` produces a pool whose connector is the
Unix-domain-socket connect operation with the given socket path stored in
`conn_args`, and is otherwise exactly the general constructor; the general
constructor, when no custom connector is supplied, defaults the connector to
the TCP connect operation and stores `host` and `port` into `conn_args`,
and, when a custom connector is supplied, uses it and leaves `conn_args`
as given. -/
theorem constructors_spec (path host : String) (port minsize maxsize : Nat)
    (ca : Option Dict) (k : ConnectorKind) :
    (MemcachePool.unix path host port minsize maxsize ca).connector =
      ConnectorKind.openUnixConnection ∧
    dictGet (MemcachePool.unix path host port minsize maxsize ca).conn_args "path" =
      some (Value.str path) ∧
    MemcachePool.unix path host port minsize maxsize ca =
      MemcachePool.init host port minsize maxsize
        (some (dictSet (ca.getD emptyDict) "path" (Value.str path)))
        (some ConnectorKind.openUnixConnection) ∧
    (MemcachePool.init host port minsize maxsize ca none).connector =
      ConnectorKind.openConnection ∧
    dictGet (MemcachePool.init host port minsize maxsize ca none).conn_args "host" =
      some (Value.str host) ∧
    dictGet (MemcachePool.init host port minsize maxsize ca none).conn_args "port" =
      some (Value.nat port) ∧
    (MemcachePool.init host port minsize maxsize ca (some k)).connector = k ∧
    (MemcachePool.init host port minsize maxsize ca (some k)).conn_args =
      ca.getD emptyDict := by
  have hne : ("host" : String) ≠ "port" := by decide
  refine ⟨rfl, ?_, rfl, rfl, ?_, ?_, rfl, rfl⟩
  · simp [MemcachePool.unix, MemcachePool.init, dictGet, dictSet]
  · simp [MemcachePool.init, dictGet, dictSet, hne]
  · simp [MemcachePool.init, dictGet, dictSet]

/-! ### Claim theorems: warm-up convergence -/

theorem run1_step (f : Nat) (cfg cfg2 : Config) (hd : isDone cfg.tasks[0]? = false)
    (hs : step cfg 0 healthy false = some cfg2) : run1 (f + 1) cfg = run1 f cfg2 := by
  simp [run1, hd, hs]

theorem run1_done (f : Nat) (cfg : Config) (hd : isDone cfg.tasks[0]? = true) :
    run1 f cfg = cfg := by
  cases f with
  | zero => rfl
  | succ f => simp [run1, hd]

theorem run1_stuck (f : Nat) (cfg : Config) (hd : isDone cfg.tasks[0]? = false)
    (hs : step cfg 0 healthy false = none) : run1 f cfg = cfg := by
  cases f with
  | zero => rfl
  | succ f => simp [run1, hd, hs]

theorem run1_add (a b : Nat) (cfg : Config) :
    run1 (a + b) cfg = run1 b (run1 a cfg) := by
  induction a generalizing cfg with
  | zero =>
      rw [Nat.zero_add]
      rfl
  | succ a ih =>
      cases hd : isDone cfg.tasks[0]? with
      | true =>
          rw [run1_done (a + 1 + b) cfg hd, run1_done (a + 1) cfg hd,
            run1_done b cfg hd]
      | false =>
          cases hs : step cfg 0 healthy false with
          | none =>
              rw [run1_stuck (a + 1 + b) cfg hd hs, run1_stuck (a + 1) cfg hd hs,
                run1_stuck b cfg hd hs]
          | some cfg2 =>
              have e1 : run1 (a + 1 + b) cfg = run1 (a + b) cfg2 := by
                rw [show a + 1 + b = (a + b) + 1 by omega]
                exact run1_step (a + b) cfg cfg2 hd hs
              rw [e1, ih, run1_step a cfg cfg2 hd hs]

theorem warm_step1 {k m M : Nat} (hcond : k = 0 ∨ k < m) (hk : k < M) :
    step (warmCfg k m M) 0 healthy false = some (awaitCfg k m M) := by
  simp [step, warmCfg, awaitCfg, stepTask, createEntry, poolSize,
    List.length_range, hcond, hk]

theorem warm_step2 {k m M : Nat} (hk : k < M) :
    step (awaitCfg k m M) 0 healthy false = some (warmCfg (k + 1) m M) := by
  simp [step, awaitCfg, warmCfg, stepTask, createResume, poolSize,
    List.length_range, hk, List.range_succ]

theorem warm_to_sel {k m M : Nat} (hcond : ¬(k = 0 ∨ k < m)) :
    step (warmCfg k m M) 0 healthy false = some (selCfg k m M) := by
  simp [step, warmCfg, selCfg, stepTask, poolSize, List.length_range, hcond]

theorem sel_take (k m M : Nat) :
    step (selCfg (k + 1) m M) 0 healthy false = some (doneCfg k m M) := by
  simp [step, selCfg, doneCfg, stepTask, List.range_succ_eq_map, isStale,
    healthy, setAdd]

theorem warmup_run (m M : Nat) (hmM : m ≤ M) :
    ∀ j k, 1 ≤ k → k + j = m → run1 (2 * j) (warmCfg k m M) = warmCfg m m M := by
  intro j
  induction j with
  | zero =>
      intro k _ hkm
      rw [Nat.add_zero] at hkm
      subst hkm
      rfl
  | succ j ih =>
      intro k hk hkm
      have hkm2 : k < m := by omega
      have hkM : k < M := lt_of_lt_of_le hkm2 hmM
      have e1 : run1 (2 * j + 1 + 1) (warmCfg k m M) = run1 (2 * j + 1) (awaitCfg k m M) :=
        run1_step (2 * j + 1) _ _ rfl (warm_step1 (Or.inr hkm2) hkM)
      have e2 : run1 (2 * j + 1) (awaitCfg k m M) = run1 (2 * j) (warmCfg (k + 1) m M) :=
        run1_step (2 * j) _ _ rfl (warm_step2 hkM)
      calc run1 (2 * (j + 1)) (warmCfg k m M)
          = run1 (2 * j + 1 + 1) (warmCfg k m M) := by rw [show 2 * (j + 1) = 2 * j + 1 + 1 by omega]
        _ = run1 (2 * j) (warmCfg (k + 1) m M) := by rw [e1, e2]
        _ = warmCfg m m M := ih (k + 1) (by omega) (by omega)

/-- C4: starting from an empty pool with `minsize = m ≤ maxsize = M` and a
connector that always succeeds with healthy connections (and `M ≥ 1`, without
which `acquire` cannot complete), after one `acquire` call completes the
caller holds Connection 0 and `size() ≥ min m M`; and the warm-up loop stops
immediately the first time creation yields no connection — whether at entry
(bound check false: the task moves to the selection phase at once) or at
resume (surplus destroyed: the task moves to the selection phase at once). -/
theorem warmup_convergence (m M : Nat) (hmM : m ≤ M) (hM : 1 ≤ M) :
    ((run1 (2 * m + 4) (initConfig 1 m M)).tasks = [TaskState.done 0] ∧
     min m M ≤ poolSize (run1 (2 * m + 4) (initConfig 1 m M)).pst) ∧
    (∀ (cfg : Config) (i : Nat) (r : Reader) (fl : Bool),
      cfg.tasks[i]? = some TaskState.warmCheck →
      (poolSize cfg.pst = 0 ∨ poolSize cfg.pst < cfg.pst.minsize) →
      createEntry cfg.pst = false →
      step cfg i r fl = some (Config.mk cfg.pst (cfg.tasks.set i TaskState.selGet))) ∧
    (∀ (cfg : Config) (i : Nat) (r : Reader),
      cfg.tasks[i]? = some TaskState.warmAwait →
      cfg.pst.maxsize ≤ poolSize cfg.pst →
      step cfg i r false = some (Config.mk
        (PoolState.mk cfg.pst.pool cfg.pst.in_use cfg.pst.minsize cfg.pst.maxsize
          (cfg.pst.next_id + 1) (cfg.pst.next_id :: cfg.pst.closed))
        (cfg.tasks.set i TaskState.selGet))) := by
  refine ⟨?_, ?_, ?_⟩
  · cases m with
    | zero =>
        have e0 : run1 4 (warmCfg 0 0 M) = run1 3 (awaitCfg 0 0 M) :=
          run1_step 3 _ _ rfl (warm_step1 (Or.inl rfl) hM)
        have e1 : run1 3 (awaitCfg 0 0 M) = run1 2 (warmCfg 1 0 M) :=
          run1_step 2 _ _ rfl (warm_step2 hM)
        have e2 : run1 2 (warmCfg 1 0 M) = run1 1 (selCfg 1 0 M) :=
          run1_step 1 _ _ rfl (warm_to_sel (by omega))
        have e3 : run1 1 (selCfg 1 0 M) = run1 0 (doneCfg 0 0 M) :=
          run1_step 0 _ _ rfl (sel_take 0 0 M)
        have efinal : run1 (2 * 0 + 4) (initConfig 1 0 M) = doneCfg 0 0 M :=
          (e0.trans e1).trans (e2.trans e3)
        rw [efinal]
        refine ⟨rfl, ?_⟩
        simp [doneCfg, poolSize]
    | succ m2 =>
        have e0 : run1 (2 * m2 + 6) (warmCfg 0 (m2 + 1) M) =
            run1 (2 * m2 + 5) (awaitCfg 0 (m2 + 1) M) :=
          run1_step (2 * m2 + 5) _ _ rfl (warm_step1 (Or.inl rfl) hM)
        have e1 : run1 (2 * m2 + 5) (awaitCfg 0 (m2 + 1) M) =
            run1 (2 * m2 + 4) (warmCfg 1 (m2 + 1) M) :=
          run1_step (2 * m2 + 4) _ _ rfl (warm_step2 hM)
        have e3 : run1 (2 * m2) (warmCfg 1 (m2 + 1) M) = warmCfg (m2 + 1) (m2 + 1) M :=
          warmup_run (m2 + 1) M hmM m2 1 (le_refl 1) (by omega)
        have e4 : run1 4 (warmCfg (m2 + 1) (m2 + 1) M) =
            run1 3 (selCfg (m2 + 1) (m2 + 1) M) :=
          run1_step 3 _ _ rfl (warm_to_sel (by omega))
        have e5 : run1 3 (selCfg (m2 + 1) (m2 + 1) M) =
            run1 2 (doneCfg m2 (m2 + 1) M) :=
          run1_step 2 _ _ rfl (sel_take m2 (m2 + 1) M)
        have e6 : run1 2 (doneCfg m2 (m2 + 1) M) = doneCfg m2 (m2 + 1) M :=
          run1_done 2 _ rfl
        have efinal : run1 (2 * (m2 + 1) + 4) (initConfig 1 (m2 + 1) M) =
            doneCfg m2 (m2 + 1) M := by
          rw [show 2 * (m2 + 1) + 4 = 2 * m2 + 6 by omega]
          calc run1 (2 * m2 + 6) (warmCfg 0 (m2 + 1) M)
              = run1 (2 * m2 + 4) (warmCfg 1 (m2 + 1) M) := e0.trans e1
            _ = run1 4 (run1 (2 * m2) (warmCfg 1 (m2 + 1) M)) := run1_add (2 * m2) 4 _
            _ = run1 4 (warmCfg (m2 + 1) (m2 + 1) M) := by rw [e3]
            _ = doneCfg m2 (m2 + 1) M := (e4.trans e5).trans e6
        rw [efinal]
        refine ⟨rfl, ?_⟩
        simp only [doneCfg, poolSize, List.length_map, List.length_range,
          List.length_cons, List.length_nil]
        omega
  · intro cfg i r fl htask hw hce
    simp [step, htask, stepTask, hw, hce]
  · intro cfg i r htask hb
    have hnb : ¬(poolSize cfg.pst < cfg.pst.maxsize) := Nat.not_lt.mpr hb
    simp [step, htask, stepTask, createResume, doClose, hnb]

/-- Witness for C4: `minsize = 2`, `maxsize = 3`; the lone `acquire` warms
the pool to 2 connections and completes with `size() = 2 = min 2 3`; a
warm-up entry with the bound reached, and a warm-up resume overtaken by the
bound, both break to the selection phase at once. -/
theorem warmup_convergence_witness :
    ((run1 8 (initConfig 1 2 3)).tasks = [TaskState.done 0] ∧
     min 2 3 ≤ poolSize (run1 8 (initConfig 1 2 3)).pst) ∧
    step (Config.mk (PoolState.mk [] [] 5 0 0 []) [TaskState.warmCheck]) 0
        healthy false =
      some (Config.mk (PoolState.mk [] [] 5 0 0 []) [TaskState.selGet]) ∧
    step (Config.mk (PoolState.mk [9] [] 9 1 3 []) [TaskState.warmAwait]) 0
        healthy false =
      some (Config.mk (PoolState.mk [9] [] 9 1 4 [3]) [TaskState.selGet]) := by
  obtain ⟨a, b, c⟩ := warmup_convergence 2 3 (by decide) (by decide)
  refine ⟨a, ?_, ?_⟩
  · exact b (Config.mk (PoolState.mk [] [] 5 0 0 []) [TaskState.warmCheck]) 0
      healthy false rfl (Or.inl rfl) (by decide)
  · exact c (Config.mk (PoolState.mk [9] [] 9 1 3 []) [TaskState.warmAwait]) 0
      healthy rfl (by decide)

end Aiomcache
